import Mathlib

/-!
Verification development for the Eurostar Snap availability checker
(`checker.py`).  The Python source is shallowly embedded: pure helpers
become Lean functions on `String` / `List Char`, Python `float` prices are
modelled as exact values in `WithTop ℚ` (`⊤` = `float("inf")`), and code
that can raise an exception is modelled with `Except String`.

Encoding note.  The source file is stored with double-encoded (mojibake)
UTF-8: the literal that renders as "départ" in the intended text is stored
as the five characters d, U+00C3, U+00A9, r, t, and similarly for the
dashes, the route-name arrows and the emoji.  The embedding reproduces the
literals exactly as Python reads them (escape sequences below), because
this is observable: U+00C3 is an uppercase letter, so it can never occur
in a string produced by `str.lower()`.
-/

namespace Checker

/-- Whitespace as matched by Python `\s` / `str.strip` on the characters
that occur in this program (ASCII whitespace plus NBSP and the narrow
no-break space). -/
def isPySpace (c : Char) : Bool :=
  c = ' ' || c = '\t' || c = '\n' || c = '\u000B' || c = '\u000C' || c = '\r' ||
    c = ' ' || c = ' '

/-- Python `str.lower`, modelled on the ASCII and Latin-1 letters that can
occur here (U+00C0..U+00DE lower to U+00E0..U+00FE except the multiplication
sign U+00D7). -/
def pyToLower (c : Char) : Char :=
  if 'A' ≤ c && c ≤ 'Z' then Char.ofNat (c.toNat + 32)
  else if 'À' ≤ c && c ≤ 'Þ' && c ≠ '×' then Char.ofNat (c.toNat + 32)
  else c

def lowerList (l : List Char) : List Char := l.map pyToLower

/-- Python `str.strip()`. -/
def stripList (l : List Char) : List Char :=
  ((l.dropWhile isPySpace).reverse.dropWhile isPySpace).reverse

/-- Match a literal character sequence at the head of the input and return
the remaining input. -/
def matchLit : List Char → List Char → Option (List Char)
  | [], l => some l
  | _ :: _, [] => none
  | p :: ps, c :: cs => if c = p then matchLit ps cs else none

/-- Leftmost-match search, like `re.search`: try the matcher at every
position, earliest position wins. -/
def searchWith (p : List Char → Option α) : List Char → Option α
  | [] => p []
  | c :: cs =>
    match p (c :: cs) with
    | some r => some r
    | none => searchWith p cs

/-- Python substring test `needle in hay`. -/
def containsSub (hay needle : List Char) : Bool :=
  (searchWith (matchLit needle) hay).isSome

/-- Python `str.split(sep)` for a one-character separator (the only kind
used in the source: ":", "-", ","). -/
def splitOnChar (sep : Char) : List Char → List (List Char)
  | [] => [[]]
  | c :: cs =>
    if c = sep then [] :: splitOnChar sep cs
    else
      match splitOnChar sep cs with
      | [] => [[c]]
      | p :: ps => (c :: p) :: ps

/-- Numeric value of an ASCII digit character. -/
def dval (c : Char) : Nat := c.toNat - 48

def digitsNat (l : List Char) : Nat := l.foldl (fun a c => 10 * a + dval c) 0

/-- Value of a nonempty all-digit character list, else `none`. -/
def digitsVal? (l : List Char) : Option Nat :=
  if l ≠ [] ∧ l.all Char.isDigit then some (digitsNat l) else none

/-- Python `int(str)` restricted to the forms that occur here: optional
surrounding whitespace, optional sign, decimal digits.  `none` models a
raised `ValueError`. -/
def pyInt (s : String) : Option Int :=
  match stripList s.toList with
  | '-' :: ds => (digitsVal? ds).map (fun n => -(n : Int))
  | '+' :: ds => (digitsVal? ds).map (fun n => (n : Int))
  | ds => (digitsVal? ds).map (fun n => (n : Int))

/-- `_normalize_time_component`: Python `f"{value:02d}"` for the
nonnegative values produced by the parser. -/
def _normalize_time_component (value : Nat) : String :=
  if value < 10 then "0" ++ toString value else toString value

/-- Greedy `\d{1,2}` immediately followed by the literal `sep`, with the
backtracking Python `re` performs (two digits then `sep`, else one digit
then `sep`).  Returns the numeric value of the digits and the rest. -/
def matchHourThen (sep : Char) : List Char → Option (Nat × List Char)
  | a :: b :: c :: rest =>
    if a.isDigit then
      if b.isDigit then (if c = sep then some (10 * dval a + dval b, rest) else none)
      else if b = sep then some (dval a, c :: rest)
      else none
    else none
  | [a, b] => if a.isDigit && b = sep then some (dval a, []) else none
  | _ => none

/-- `(\d{2})`: exactly two digits. -/
def match2Digits : List Char → Option (Nat × List Char)
  | a :: b :: rest =>
    if a.isDigit && b.isDigit then some (10 * dval a + dval b, rest) else none
  | _ => none

/-- `\s+` (greedy; every use in the source is followed by a non-space
token, so greedy matching without backtracking is faithful). -/
def ws1 : List Char → Option (List Char)
  | [] => none
  | c :: cs => if isPySpace c then some (cs.dropWhile isPySpace) else none

/-- Matcher for the three "phrase" patterns of `_parse_time_range_from_text`:
`w1\s+w2\s+(\d{1,2})T(\d{2})\s+mid\s+(\d{1,2})T(\d{2})` where `T` is the
hour/minute separator (`:` or `h`). -/
def phraseAt (w1 w2 mid : List Char) (tsep : Char) (l : List Char) :
    Option (Nat × Nat × Nat × Nat) := do
  let r ← matchLit w1 l
  let r ← ws1 r
  let r ← matchLit w2 r
  let r ← ws1 r
  let (sh, r) ← matchHourThen tsep r
  let (sm, r) ← match2Digits r
  let r ← ws1 r
  let r ← matchLit mid r
  let r ← ws1 r
  let (eh, r) ← matchHourThen tsep r
  let (em, _) ← match2Digits r
  pure (sh, sm, eh, em)

/-- The word stored in the source for the French patterns.  Because of the
double encoding it is literally d, U+00C3, U+00A9, p, a, r, t
(rendering as "dÃ©part"), not the intended word with U+00E9. -/
def w_depart : List Char := ['d', 'Ã', '©', 'p', 'a', 'r', 't']

def w_entre : List Char := ['e', 'n', 't', 'r', 'e']

def w_et : List Char := ['e', 't']

def w_departure : List Char := ['d', 'e', 'p', 'a', 'r', 't', 'u', 'r', 'e']

def w_between : List Char := ['b', 'e', 't', 'w', 'e', 'e', 'n']

def w_and : List Char := ['a', 'n', 'd']

/-- The separator alternation `(?:-|â€“|â€”|to|Ã )` of patterns 4 and 5, in
source order.  The middle alternatives are the mojibake forms of the en
dash and em dash (U+00E2 U+20AC U+201C / U+201D); the last is U+00C3
followed by NBSP (mojibake of "à "). -/
def sepToks : List (List Char) :=
  [['-'],
   ['â', '€', '“'],
   ['â', '€', '”'],
   ['t', 'o'],
   ['Ã', ' ']]

def matchSep (l : List Char) : Option (List Char) :=
  sepToks.findSome? (fun t => matchLit t l)

/-- Like `matchHourThen` but returning the matched digit characters
(needed by pattern 4, whose group text is re-parsed by
`_normalize_time_string`). -/
def hourCharsThen (sep : Char) : List Char → Option (List Char × List Char)
  | a :: b :: c :: rest =>
    if a.isDigit then
      if b.isDigit then (if c = sep then some ([a, b], rest) else none)
      else if b = sep then some ([a], c :: rest)
      else none
    else none
  | [a, b] => if a.isDigit && b = sep then some ([a], []) else none
  | _ => none

def twoDigitChars : List Char → Option (List Char × List Char)
  | a :: b :: rest => if a.isDigit && b.isDigit then some ([a, b], rest) else none
  | _ => none

/-- Pattern 4 at one position:
`(\d{1,2}:\d{2})\s*(?:-|â€“|â€”|to|Ã )\s*(\d{1,2}:\d{2})` returning the two
captured group strings. -/
def p4At (l : List Char) : Option (String × String) := do
  let (hc, r) ← hourCharsThen ':' l
  let (mc, r) ← twoDigitChars r
  let r := r.dropWhile isPySpace
  let r ← matchSep r
  let r := r.dropWhile isPySpace
  let (hc2, r) ← hourCharsThen ':' r
  let (mc2, _) ← twoDigitChars r
  pure (String.mk (hc ++ ':' :: mc), String.mk (hc2 ++ ':' :: mc2))

/-- Alternatives of greedy `(\d{1,2})` in priority order (two digits first,
then one), as `re` backtracking explores them. -/
def hourAlts : List Char → List (Nat × List Char)
  | [] => []
  | [a] => if a.isDigit then [(dval a, [])] else []
  | a :: b :: rest =>
    if a.isDigit then
      if b.isDigit then [(10 * dval a + dval b, rest), (dval a, b :: rest)]
      else [(dval a, b :: rest)]
    else []

/-- Alternatives of the optional minute group `(?::?(\d{2}))?` in priority
order: colon plus two digits, two digits, skip. -/
def minAlts (l : List Char) : List (Option Nat × List Char) :=
  (match l with
   | ':' :: a :: b :: rest =>
     if a.isDigit && b.isDigit then [(some (10 * dval a + dval b), rest)] else []
   | _ => []) ++
  (match l with
   | a :: b :: rest =>
     if a.isDigit && b.isDigit then [(some (10 * dval a + dval b), rest)] else []
   | _ => []) ++
  [(none, l)]

/-- Pattern 5 at one position:
`(\d{1,2})(?::?(\d{2}))?\s*(?:-|â€“|â€”|to|Ã )\s*(\d{1,2})(?::?(\d{2}))?`
with full depth-first backtracking over the choice points. -/
def p5At (l : List Char) : Option (Nat × Nat × Nat × Nat) :=
  (hourAlts l).findSome? (fun sr =>
    (minAlts sr.2).findSome? (fun mr =>
      match matchSep (mr.2.dropWhile isPySpace) with
      | none => none
      | some r2 =>
        (hourAlts (r2.dropWhile isPySpace)).findSome? (fun er =>
          (minAlts er.2).findSome? (fun m2 =>
            some (sr.1, (mr.1).getD 0, er.1, (m2.1).getD 0)))))

/-- `(\d{1,2}):(\d{2})` at one position, numeric groups. -/
def hmAt (l : List Char) : Option (Nat × Nat) := do
  let (h, r) ← matchHourThen ':' l
  let (m, _) ← match2Digits r
  pure (h, m)

/-- `_normalize_time_string` from the source: strip, lower, replace "h"
with ":", search `(\d{1,2}):(\d{2})`, zero-pad; "" when no match. -/
def _normalize_time_string (time_str : String) : String :=
  if time_str = "" then ""
  else
    match searchWith hmAt
        ((lowerList (stripList time_str.toList)).map (fun c => if c = 'h' then ':' else c)) with
    | none => ""
    | some (h, m) => _normalize_time_component h ++ ":" ++ _normalize_time_component m

/-- A parsed time range: start and end as "HH:MM" strings. -/
abbrev TimeRange := String × String

def fmtPhrase : Nat × Nat × Nat × Nat → TimeRange
  | (sh, sm, eh, em) =>
    (_normalize_time_component sh ++ ":" ++ _normalize_time_component sm,
     _normalize_time_component eh ++ ":" ++ _normalize_time_component em)

def pat1 (l : List Char) : Option (Nat × Nat × Nat × Nat) :=
  searchWith (phraseAt w_depart w_entre w_et ':') l

def pat2 (l : List Char) : Option (Nat × Nat × Nat × Nat) :=
  searchWith (phraseAt w_depart w_entre w_et 'h') l

def pat3 (l : List Char) : Option (Nat × Nat × Nat × Nat) :=
  searchWith (phraseAt w_departure w_between w_and ':') l

def pat4 (l : List Char) : Option (String × String) := searchWith p4At l

def pat5 (l : List Char) : Option (Nat × Nat × Nat × Nat) := searchWith p5At l

def p5Result (lowered : List Char) : Option TimeRange := (pat5 lowered).map fmtPhrase

/-- `_parse_time_range_from_text`: the five patterns in source order, first
match wins; pattern 4 re-parses its groups through `_normalize_time_string`
and falls through when either normalization is empty. -/
def _parse_time_range_from_text (text : String) : Option TimeRange :=
  if text = "" then none
  else
    let lowered := lowerList (stripList text.toList)
    match pat1 lowered with
    | some r => some (fmtPhrase r)
    | none =>
      match pat2 lowered with
      | some r => some (fmtPhrase r)
      | none =>
        match pat3 lowered with
        | some r => some (fmtPhrase r)
        | none =>
          match pat4 lowered with
          | some (g1, g2) =>
            if _normalize_time_string g1 ≠ "" ∧ _normalize_time_string g2 ≠ "" then
              some (_normalize_time_string g1, _normalize_time_string g2)
            else p5Result lowered
          | none => p5Result lowered

/-- Travel time band (the source uses the strings "morning"/"afternoon"). -/
inductive Band where
  | morning
  | afternoon
  deriving DecidableEq, Repr

def morning_keywords : List String := ["morning", "matin"]

/-- The afternoon keyword list from the source.  The third entry is the
double-encoded literal a, p, r, U+00C3, U+00A8, s (rendering "aprÃ¨s"); it
contains the uppercase letter U+00C3 and therefore can never occur in
lowercased text. -/
def afternoon_keywords : List String := ["afternoon", "apres", "aprÃ¨s"]

/-- `(label_text or "").lower()`. -/
def labelLowered (label_text : Option String) : List Char :=
  lowerList ((label_text.getD ("")).toList)

def morningHit (label_text : Option String) : Bool :=
  morning_keywords.any (fun k => containsSub (labelLowered label_text) k.toList)

def afternoonHit (label_text : Option String) : Bool :=
  afternoon_keywords.any (fun k => containsSub (labelLowered label_text) k.toList)

/-- `int(time_range[0].split(":")[0])`; `none` models the caught exception. -/
def startHour? (time_range : TimeRange) : Option Int :=
  pyInt (String.mk ((splitOnChar ':' time_range.1.toList).headD []))

/-- `_infer_band` from the source. -/
def _infer_band (label_text : Option String) (time_range : Option TimeRange) :
    Option Band :=
  if morningHit label_text then some Band.morning
  else if afternoonHit label_text then some Band.afternoon
  else
    match time_range with
    | some tr =>
      match startHour? tr with
      | some h => some (if h < 14 then Band.morning else Band.afternoon)
      | none => none
    | none => none

/-- The complete band classification performed in `check_snap` (lines
486-495): `_infer_band(label, tr)`, retried as `_infer_band("", tr)` when a
time range is present, with final fallback `"morning"`. -/
def classifyBand (label_text : Option String) (time_range : Option TimeRange) : Band :=
  match _infer_band label_text time_range with
  | some b => b
  | none =>
    match time_range with
    | some _ => (_infer_band (some ("")) time_range).getD Band.morning
    | none => Band.morning

/-- The numeric token `(\d+(?:\.\d+)?)` at one position, as an exact
rational: the token D.F with k fraction digits denotes
(D * 10 ^ k + F) / 10 ^ k.  (Python converts the token with `float`; all
statements below only use values that are exact in either
representation.) -/
def numAt : List Char → Option ℚ
  | [] => none
  | c :: cs =>
    if c.isDigit then
      match (c :: cs).dropWhile Char.isDigit with
      | '.' :: r =>
        match r.takeWhile Char.isDigit with
        | [] => some (mkRat (Int.ofNat (digitsNat ((c :: cs).takeWhile Char.isDigit))) 1)
        | fs => some (mkRat
            (Int.ofNat (digitsNat ((c :: cs).takeWhile Char.isDigit) * 10 ^ fs.length +
              digitsNat fs))
            (10 ^ fs.length))
      | _ => some (mkRat (Int.ofNat (digitsNat ((c :: cs).takeWhile Char.isDigit))) 1)
    else none

/-- `_price_to_float`: remove narrow no-break spaces, turn decimal commas
into dots, take the first numeric token; `⊤` models `float("inf")`. -/
def _price_to_float (price_text : String) : WithTop ℚ :=
  if price_text = "" then ⊤
  else
    match searchWith numAt
        ((price_text.toList.filter (fun c => c ≠ ' ')).map
          (fun c => if c = ',' then '.' else c)) with
    | none => ⊤
    | some q => (q : WithTop ℚ)

/-- `to_minutes` from `_merge_time_ranges`: `h, m = t.split(":")` then
`int(h) * 60 + int(m)`.  On strings that are not two int-parsable parts the
source raises (the exception escapes to the per-date handler in
`check_snap`); that case is modelled as 0 and excluded by the well-formed
hypotheses of the theorems below. -/
def to_minutes (t : String) : Int :=
  match splitOnChar ':' t.toList with
  | [h, m] => ((pyInt (String.mk h)).getD 0) * 60 + ((pyInt (String.mk m)).getD 0)
  | _ => 0

def startLE (r r2 : TimeRange) : Prop := to_minutes r.1 ≤ to_minutes r2.1

instance : DecidableRel startLE :=
  fun a b => inferInstanceAs (Decidable (to_minutes a.1 ≤ to_minutes b.1))

instance : IsTotal TimeRange startLE := ⟨fun a b => le_total _ _⟩

instance : IsTrans TimeRange startLE := ⟨fun _ _ _ h h2 => le_trans h h2⟩

/-- Relation of `sorted(..., reverse=True)` on end times: descending. -/
def endGE (r r2 : TimeRange) : Prop := to_minutes r2.2 ≤ to_minutes r.2

instance : DecidableRel endGE :=
  fun a b => inferInstanceAs (Decidable (to_minutes b.2 ≤ to_minutes a.2))

instance : IsTotal TimeRange endGE := ⟨fun a b => (le_total _ _).symm⟩

instance : IsTrans TimeRange endGE := ⟨fun _ _ _ h h2 => le_trans h2 h⟩

/-- `_merge_time_ranges`: `sorted(ranges, key=start-minutes)[0][0]` and
`sorted(ranges, key=end-minutes, reverse=True)[0][1]`.  Python `sorted` is
a stable sort, modelled by `List.insertionSort` (also stable); indexing
`[0]` is `headD` on the provably nonempty result. -/
def _merge_time_ranges (time_ranges : List TimeRange) : Option TimeRange :=
  match time_ranges with
  | [] => none
  | x :: xs =>
    some (((List.insertionSort startLE (x :: xs)).headD x).1,
          ((List.insertionSort endGE (x :: xs)).headD x).2)

/-- One entry of the `offers` list built in `check_snap`. -/
structure AggOffer where
  band : Band
  price_text : String
  time_range : Option TimeRange
  deriving DecidableEq, Repr

def aggKey (o : AggOffer) : WithTop ℚ := _price_to_float o.price_text

/-- Python `min(xs, key=key)` on the nonempty list `x :: xs`: keeps the
first element among those with minimal key (`<` in the fold, so ties keep
the earlier element). -/
def pyMin {α β : Type _} [LinearOrder β] (key : α → β) (x : α) (xs : List α) : α :=
  xs.foldl (fun best o => if key o < key best then o else best) x

/-- The per-band slot stored in `entry[band]`. -/
structure BandSlot where
  price_text : String
  time_range : Option TimeRange
  url : String
  deriving DecidableEq, Repr

/-- The per-band aggregation of `check_snap` (lines 517-527): filter the
offers of the band; if any, pick the offer with the lowest parsed price and
merge the present time ranges (null when none is present). -/
def aggregateBand (url : String) (offers : List AggOffer) (b : Band) : Option BandSlot :=
  match offers.filter (fun o => o.band == b) with
  | [] => none
  | x :: xs =>
    some { price_text := (pyMin aggKey x xs).price_text,
           time_range :=
             if (x :: xs).any (fun o => o.time_range.isSome) then
               _merge_time_ranges ((x :: xs).filterMap (fun o => o.time_range))
             else none,
           url := url }

/-- The per-(route, date) record built by `check_snap` and consumed by
`send_email`. -/
structure DailyEntry where
  route : String
  date : String
  url : String
  morning : Option BandSlot
  afternoon : Option BandSlot
  deriving DecidableEq, Repr

def mkDailyEntry (route date url : String) (offers : List AggOffer) : DailyEntry :=
  { route := route, date := date, url := url,
    morning := aggregateBand url offers Band.morning,
    afternoon := aggregateBand url offers Band.afternoon }

def day_names : List String :=
  ["Monday", "Tuesday", "Wednesday", "Thursday", "Friday", "Saturday", "Sunday"]

def month_names : List String :=
  ["January", "February", "March", "April", "May", "June",
   "July", "August", "September", "October", "November", "December"]

def isLeapYear (y : Nat) : Bool := y % 4 = 0 && (y % 100 ≠ 0 || y % 400 = 0)

def monthLengths (y : Nat) : List Nat :=
  [31, if isLeapYear y then 29 else 28, 31, 30, 31, 30, 31, 31, 30, 31, 30, 31]

def daysInMonth (y m : Nat) : Nat := (monthLengths y).getD (m - 1) 31

def daysBeforeYear (y : Nat) : Nat :=
  365 * (y - 1) + (y - 1) / 4 - (y - 1) / 100 + (y - 1) / 400

def daysBeforeMonth (y m : Nat) : Nat := ((monthLengths y).take (m - 1)).sum

/-- Proleptic Gregorian ordinal, as used by `datetime.date.toordinal`. -/
def toOrdinal (y m d : Nat) : Nat := daysBeforeYear y + daysBeforeMonth y m + d

/-- `datetime.weekday()`: 0 = Monday (0001-01-01 has ordinal 1 and is a
Monday). -/
def pyWeekday (y m d : Nat) : Nat := (toOrdinal y m d - 1) % 7

/-- `datetime.strptime(date_str, "%Y-%m-%d")`: three dash-separated
all-digit fields (at most 4/2/2 digits) forming a valid calendar date;
`none` models the raised `ValueError`. -/
def strptimeYmd (s : String) : Option (Nat × Nat × Nat) :=
  match splitOnChar '-' s.toList with
  | [ys, ms, ds] =>
    match digitsVal? ys, digitsVal? ms, digitsVal? ds with
    | some y, some m, some d =>
      if ys.length ≤ 4 ∧ ms.length ≤ 2 ∧ ds.length ≤ 2 ∧
          1 ≤ y ∧ 1 ≤ m ∧ m ≤ 12 ∧ 1 ≤ d ∧ d ≤ daysInMonth y m then
        some (y, m, d)
      else none
    | _, _, _ => none
  | _ => none

/-- The day-suffix computation of `_format_date_for_display`. -/
def ordinalSuffix (day : Nat) : String :=
  if (4 ≤ day ∧ day ≤ 20) ∨ (24 ≤ day ∧ day ≤ 30) then "th"
  else (["st", "nd", "rd"].getD (day % 10 - 1) (""))

/-- `_format_date_for_display`: long calendar form, or the raw input when
parsing fails. -/
def _format_date_for_display (date_str : String) : String :=
  match strptimeYmd date_str with
  | none => date_str
  | some (y, m, d) =>
    (day_names.getD (pyWeekday y m d) ("")) ++ " " ++ toString d ++ ordinalSuffix d ++
      " " ++ (month_names.getD (m - 1) ("")) ++ " " ++ toString y

def th_style : String :=
  "style=\"border:1px solid #ddd;padding:8px;text-align:left;background:#f7f7f7\""

def td_style : String := "style=\"border:1px solid #ddd;padding:8px;text-align:left\""

/-- `cell_content` from `build_table`; the placeholder dash is the
source literal U+00E2 U+20AC U+201D (mojibake of an em dash). -/
def cell_content (slot : Option BandSlot) : String :=
  match slot with
  | none => "â€”<br/><small>no availability for now</small>"
  | some s =>
    match s.time_range with
    | some (a, b) =>
      "<a href=\"" ++ s.url ++ "\">" ++ s.price_text ++ "</a>" ++
        "<br/><small>between " ++ a ++ " and " ++ b ++ "</small>"
    | none =>
      "<a href=\"" ++ s.url ++ "\">" ++ s.price_text ++ "</a>" ++
        "<br/><small>no availability for now</small>"

def row_html (r : DailyEntry) : String :=
  "<tr>" ++ "<td " ++ td_style ++ ">" ++ _format_date_for_display r.date ++ "</td>" ++
    "<td " ++ td_style ++ ">" ++ cell_content r.morning ++ "</td>" ++
    "<td " ++ td_style ++ ">" ++ cell_content r.afternoon ++ "</td>" ++ "</tr>"

def build_table (rows : List DailyEntry) : String :=
  "<table style=\"border-collapse:collapse;width:100%;max-width:720px;font-family:Arial,Helvetica,sans-serif\">" ++
    "<tr><th " ++ th_style ++ ">Date</th><th " ++ th_style ++ ">Morning</th><th " ++
    th_style ++ ">Afternoon</th></tr>" ++
    String.join (rows.map row_html) ++ "</table>"

/-- The email header block (emoji stored as their mojibake character
sequences, exactly as in the source). -/
def email_header : String :=
  "<div style=\"font-family:Arial,Helvetica,sans-serif\">" ++
    "<h2>ðŸ¤– The bot for cheap tickets between Amsterdam and Paris ðŸ¤–</h2>" ++
    "<p>ðŸš„ Eurostar Snap availability</p>" ++ "</div>"

/-- The route-name constant used in both `check_snap` calls and
`send_email`; the arrow is stored as U+00E2 U+2020 U+2019 (mojibake of
U+2192). -/
def routeParisAms : String := "Paris â†’ Amsterdam"

def routeAmsParis : String := "Amsterdam â†’ Paris"

def fixed_routes : List String := [routeParisAms, routeAmsParis]

/-- Python `str.replace` for a nonempty pattern: leftmost, non-overlapping.
The fuel argument (initialized to the input length) only makes the
recursion structural; it is never exhausted. -/
def replaceAux (pat rep : List Char) : Nat → List Char → List Char
  | 0, l => l
  | _ + 1, [] => []
  | fuel + 1, c :: cs =>
    match matchLit pat (c :: cs) with
    | some rest => rep ++ replaceAux pat rep fuel rest
    | none => c :: replaceAux pat rep fuel cs

def pyReplace (s pat rep : String) : String :=
  String.mk (replaceAux pat.toList rep.toList s.toList.length s.toList)

def route_with_emojis (route : String) : String :=
  pyReplace
    (pyReplace route ("Paris") ("ðŸ—¼ Paris ðŸ—¼"))
    ("Amsterdam") ("â˜• Amsterdam â˜•")

def dateLE (a b : DailyEntry) : Prop := a.date ≤ b.date

instance : DecidableRel dateLE := fun a b => inferInstanceAs (Decidable (a.date ≤ b.date))

/-- One iteration of the route loop in `send_email`: the section for this
route, or `none` when the route has no entries (`continue`). -/
def sectionFor (entries : List DailyEntry) (route : String) : Option String :=
  match entries.filter (fun e => e.route == route) with
  | [] => none
  | x :: xs =>
    some ("<h3 style=\"font-family:Arial,Helvetica,sans-serif\">" ++
            route_with_emojis route ++ "</h3>" ++
            build_table (List.insertionSort dateLE (x :: xs)))

def sections (entries : List DailyEntry) : List String :=
  fixed_routes.filterMap (sectionFor entries)

def email_message (entries : List DailyEntry) : String :=
  email_header ++ String.join (sections entries)

structure EmailConfig where
  emailSender : String
  emailPassword : String
  emailRecipient : String

/-- The rendered email in flight.  `recipients` is the list handed to
`sendmail`; subject/body are the built strings. -/
structure OutgoingEmail where
  sender : String
  recipients : List String
  subject : String
  body : String

def email_subject : String :=
  "ðŸ¤– The bot for cheap tickets between Amsterdam and Paris ðŸ¤–"

/-- `EMAIL_RECIPIENT.split(",")` — verbatim comma split, no trimming, no
discarding of empty pieces. -/
def recipientsOf (cfg : EmailConfig) : List String :=
  (splitOnChar ',' cfg.emailRecipient.toList).map String.mk

/-- The whole SMTP interaction (`smtplib.SMTP` connect, `starttls`,
`login`, `sendmail`) as one oracle: its outcome depends on the network and
server, so it is a parameter; `Except.error` models a raised exception. -/
def SmtpOracle : Type := OutgoingEmail → Except String Unit

def outgoingFor (cfg : EmailConfig) (entries : List DailyEntry) : OutgoingEmail :=
  { sender := cfg.emailSender, recipients := recipientsOf cfg,
    subject := email_subject, body := email_message entries }

/-- `send_email`: returns immediately on an empty entry collection,
otherwise builds the message and performs the SMTP interaction; an SMTP
exception propagates to the caller (`Except.error`).  On success the sent
mail is returned (the Python function returns `None`; the value is exposed
here so that theorems can observe what was sent). -/
def send_email (cfg : EmailConfig) (smtp : SmtpOracle) (available_entries : List DailyEntry) :
    Except String (Option OutgoingEmail) :=
  match available_entries with
  | [] => Except.ok none
  | _ :: _ =>
    match smtp (outgoingFor cfg available_entries) with
    | Except.ok _ => Except.ok (some (outgoingFor cfg available_entries))
    | Except.error e => Except.error e

/-- The delivery step of `main` (lines 625-631): `send_email` wrapped in
`try/except`, every outcome turned into a log line.  The codomain
`Except String String` records that an uncaught exception in this step
would surface as `Except.error`; the theorems show it never does. -/
def mainDeliveryStep (cfg : EmailConfig) (smtp : SmtpOracle) (entries : List DailyEntry) :
    Except String String :=
  match send_email cfg smtp entries with
  | Except.ok _ => Except.ok ("[DEBUG] Email sent successfully")
  | Except.error e => Except.ok ("[DEBUG] Email failed (expected on Railway): " ++ e)

def pyStripStr (s : String) : String := String.mk (stripList s.toList)

/-- Modelled from the spec, for the refinement comparison of claim C4 only
(the source has no such function): "recipient address list
(comma-separated, trimmed, empties discarded)". -/
def recipientsPerSpec (s : String) : List String :=
  (((splitOnChar ',' s.toList).map String.mk).map pyStripStr).filter (fun r => r ≠ "")

/-- The standard-English ordinal-suffix rule in the words of claim C9 (th
for 4-20, st/nd/rd for days ending in 1/2/3 outside 11-13), stated
spec-side for comparison with `ordinalSuffix`. -/
def claimSuffix (day : Nat) : String :=
  if day % 10 = 1 ∧ day ≠ 11 then "st"
  else if day % 10 = 2 ∧ day ≠ 12 then "nd"
  else if day % 10 = 3 ∧ day ≠ 13 then "rd"
  else "th"

/-- Observation helper: the recipient list of a successfully sent mail. -/
def sentRecipients (r : Except String (Option OutgoingEmail)) : Option (List String) :=
  match r with
  | Except.ok (some m) => some m.recipients
  | _ => none

/-- Shape test "two digits, colon, two digits" for TimeRange components. -/
def isHHMM (s : String) : Bool :=
  match s.toList with
  | [a, b, c, d, e] => a.isDigit && b.isDigit && c = ':' && d.isDigit && e.isDigit
  | _ => false

/-- Concrete offer with an unparseable price, for witnesses. -/
def demo1 : AggOffer := ⟨Band.morning, ("no price"), none⟩

/-- Concrete offer with price 10, for witnesses. -/
def demo2 : AggOffer := ⟨Band.morning, ("€10"), none⟩

/-- Concrete offer that ties with `demo2` on price, for witnesses. -/
def demo3 : AggOffer := ⟨Band.morning, ("10 €"), none⟩

theorem searchNum_none : ∀ l : List Char, (∀ c ∈ l, c.isDigit = false) →
    searchWith numAt l = none := by
  intro l
  induction l with
  | nil => intro _; rfl
  | cons c cs ih =>
    intro h
    have hc : c.isDigit = false := h c (List.mem_cons_self c cs)
    have h1 : numAt (c :: cs) = none := by simp [numAt, hc]
    simp only [searchWith, h1]
    exact ih (fun c2 hc2 => h c2 (List.mem_cons_of_mem _ hc2))

/-- C2: band classification is total on (optional label, optional
TimeRange) and follows the priority order of the source: morning keyword,
afternoon keyword, start hour of a present TimeRange compared with 14,
default morning; in particular `classifyBand none none = morning`. -/
theorem C2_band_classification :
    ∀ (label : Option String) (tr : Option TimeRange),
      (morningHit label = true → classifyBand label tr = Band.morning)
      ∧ (morningHit label = false → afternoonHit label = true →
          classifyBand label tr = Band.afternoon)
      ∧ (morningHit label = false → afternoonHit label = false →
          ∀ a b : String, tr = some (a, b) → ∀ h : Int,
            startHour? (a, b) = some h →
            classifyBand label tr = if h < 14 then Band.morning else Band.afternoon)
      ∧ (morningHit label = false → afternoonHit label = false → tr = none →
          classifyBand label tr = Band.morning)
      ∧ classifyBand none none = Band.morning := by
  intro label tr
  refine ⟨?_, ?_, ?_, ?_, rfl⟩
  · intro hm
    simp [classifyBand, _infer_band, hm]
  · intro hm ha
    simp [classifyBand, _infer_band, hm, ha]
  · intro hm ha a b htr h hsh
    subst htr
    simp [classifyBand, _infer_band, hm, ha, hsh]
  · intro hm ha htr
    subst htr
    simp [classifyBand, _infer_band, hm, ha]

theorem C2_band_classification_witness :
    classifyBand (some ("Matin")) none = Band.morning
    ∧ classifyBand none (some (("15:00"), ("18:00"))) = Band.afternoon
    ∧ classifyBand none none = Band.morning := by
  refine ⟨(C2_band_classification (some ("Matin")) none).1 (by decide), ?_,
    (C2_band_classification none none).2.2.2.2⟩
  have h := (C2_band_classification none (some (("15:00"), ("18:00")))).2.2.1
    (by decide) (by decide) ("15:00") ("18:00") rfl 15 (by decide)
  have h14 : ¬ ((15 : Int) < 14) := by norm_num
  rw [if_neg h14] at h
  exact h

/-- C3: a band whose filtered offer list is nonempty always yields a
populated slot; when no offer in the band carries a time range the slot is
still populated with the representative price and a null merged range. -/
theorem C3_band_without_time_ranges :
    ∀ (url : String) (offers : List AggOffer) (b : Band) (x : AggOffer)
      (xs : List AggOffer),
      offers.filter (fun o => o.band == b) = x :: xs →
      (∀ o ∈ x :: xs, o.time_range = none) →
      aggregateBand url offers b =
        some { price_text := (pyMin aggKey x xs).price_text,
               time_range := none, url := url } := by
  intro url offers b x xs hfilter htr
  unfold aggregateBand
  rw [hfilter]
  have hany : ((x :: xs).any fun o => o.time_range.isSome) = false := by
    rw [List.any_eq_false]
    intro o ho
    rw [htr o ho]
    simp
  simp [hany]

theorem C3_band_without_time_ranges_witness :
    aggregateBand ("u") [⟨Band.morning, ("30,50 €"), none⟩] Band.morning =
      some ⟨("30,50 €"), none, ("u")⟩ := by
  have h := C3_band_without_time_ranges ("u")
    [⟨Band.morning, ("30,50 €"), none⟩] Band.morning
    ⟨Band.morning, ("30,50 €"), none⟩ []
    (by decide) (by intro o ho; simp at ho; rw [ho])
  simpa using h

/-- C5 (code bug): the French phrase patterns of
`_parse_time_range_from_text` can never match.  Their literals are stored
double-encoded ("dÃ©part", with the uppercase letter U+00C3), and the
patterns are applied to lowercased text, so the strings the code comments
document ("Départ entre 06:10 et 14:00", "Départ entre 6h10 et 14h00")
yield `none`; the ASCII hyphen and English phrase patterns still work. -/
theorem C5_french_patterns_dead :
    _parse_time_range_from_text ("Départ entre 06:10 et 14:00") = none
    ∧ _parse_time_range_from_text ("Départ entre 6h10 et 14h00") = none
    ∧ _parse_time_range_from_text ("6:10-14:00") = some (("06:10"), ("14:00"))
    ∧ _parse_time_range_from_text ("departure between 6:10 and 14:00") =
        some (("06:10"), ("14:00"))
    ∧ _parse_time_range_from_text ("7-12") = some (("07:00"), ("12:00")) := by
  refine ⟨by decide, by decide, by decide, by decide, by decide⟩

/-- C6: the price parser is total; it normalizes the decimal comma,
removes narrow no-break spaces, takes the first numeric token, and
returns `⊤` (the model of `float("inf")`) whenever the input has no
digits — in particular on "12,50 €" it yields 12.5 and on "no price" it
yields `⊤`. -/
theorem C6_price_parse :
    (∀ s : String, (∀ c ∈ s.toList, c.isDigit = false) → _price_to_float s = ⊤)
    ∧ _price_to_float ("12,50 €") = ((25 / 2 : ℚ) : WithTop ℚ)
    ∧ _price_to_float ("no price") = ⊤
    ∧ _price_to_float ("1 234,56 €") = ((123456 / 100 : ℚ) : WithTop ℚ)
    ∧ _price_to_float ("abc 7.25 9") = ((29 / 4 : ℚ) : WithTop ℚ) := by
  refine ⟨?_, ?_, by decide, ?_, ?_⟩
  · intro s h
    unfold _price_to_float
    by_cases hs : s = ""
    · rw [if_pos hs]
    · rw [if_neg hs]
      have hnone : searchWith numAt
          ((s.toList.filter (fun c => c ≠ ' ')).map
            (fun c => if c = ',' then '.' else c)) = none := by
        apply searchNum_none
        intro c hc
        rw [List.mem_map] at hc
        obtain ⟨c2, hc2, rfl⟩ := hc
        rw [List.mem_filter] at hc2
        have hc3 := h c2 hc2.1
        by_cases hcomma : c2 = ','
        · subst hcomma; simp
        · simp [hcomma, hc3]
      rw [hnone]
  · rw [show ((25 / 2 : ℚ) : WithTop ℚ) = some (25 / 2 : ℚ) from rfl,
      show _price_to_float ("12,50 €") = some (mkRat 25 2) from by decide]
    congr 1
    rw [Rat.mkRat_eq_divInt]
    norm_num [Rat.divInt_eq_div]
  · rw [show ((123456 / 100 : ℚ) : WithTop ℚ) = some (123456 / 100 : ℚ) from rfl,
      show _price_to_float ("1 234,56 €") = some (mkRat 123456 100) from by decide]
    congr 1
    rw [Rat.mkRat_eq_divInt]
    norm_num [Rat.divInt_eq_div]
  · rw [show ((29 / 4 : ℚ) : WithTop ℚ) = some (29 / 4 : ℚ) from rfl,
      show _price_to_float ("abc 7.25 9") = some (mkRat 725 100) from by decide]
    congr 1
    rw [Rat.mkRat_eq_divInt]
    norm_num [Rat.divInt_eq_div]

theorem C6_price_parse_witness : _price_to_float ("abc") = ⊤ :=
  C6_price_parse.1 ("abc") (by decide)

/-- C9: date formatting returns the long calendar form for parseable
YYYY-MM-DD strings (weekday name, ordinal day, month name, year) and falls
back to the raw input when parsing fails; the range-based suffix rule of
the source agrees with the standard English ordinal rule on every possible
day of month. -/
theorem C9_date_formatting :
    (∀ s : String, strptimeYmd s = none → _format_date_for_display s = s)
    ∧ _format_date_for_display ("2025-08-18") = ("Monday 18th August 2025")
    ∧ _format_date_for_display ("2026-03-01") = ("Sunday 1st March 2026")
    ∧ ∀ d : Nat, d ≤ 31 → 1 ≤ d → ordinalSuffix d = claimSuffix d := by
  refine ⟨?_, by decide, by decide, by decide⟩
  intro s h
  simp [_format_date_for_display, h]

theorem C9_date_formatting_witness :
    _format_date_for_display ("not a date") = ("not a date")
    ∧ ordinalSuffix 23 = claimSuffix 23 :=
  ⟨C9_date_formatting.1 ("not a date") (by decide),
   C9_date_formatting.2.2.2 23 (by decide) (by decide)⟩

/-- C1 (counterexample): on a non-empty entry collection with an
unreachable SMTP host, `send_email` does not return normally: the
exception raised inside the `with smtplib.SMTP(...)` block propagates to
its caller (modelled by `Except.error`). -/
theorem C1_counterexample :
    send_email ⟨("s"), ("p"), ("r")⟩ (fun _ => Except.error ("smtp unreachable"))
        [⟨routeParisAms, ("2025-08-18"), ("u"), none, none⟩] =
      Except.error ("smtp unreachable")
    ∧ (send_email ⟨("s"), ("p"), ("r")⟩ (fun _ => Except.error ("smtp unreachable"))
        [⟨routeParisAms, ("2025-08-18"), ("u"), none, none⟩]).toOption = none :=
  ⟨rfl, rfl⟩

/-- C1 (amended): the never-raises guarantee holds one level up: the
delivery step of `main` wraps `send_email` in `try/except`, so for every
configuration, channel outcome and entry collection it completes normally
with the failure only logged. -/
theorem C1_amended_main_never_raises :
    ∀ (cfg : EmailConfig) (smtp : SmtpOracle) (entries : List DailyEntry),
      ∃ logLine : String, mainDeliveryStep cfg smtp entries = Except.ok logLine := by
  intro cfg smtp entries
  rcases hs : send_email cfg smtp entries with e | v
  · exact ⟨("[DEBUG] Email failed (expected on Railway): ") ++ e,
      by unfold mainDeliveryStep; rw [hs]⟩
  · exact ⟨("[DEBUG] Email sent successfully"),
      by unfold mainDeliveryStep; rw [hs]⟩

/-- C4 (counterexample): the recipient list is not trimmed and empty
pieces are not discarded (`" , a@b "` yields `[" ", " a@b "]`, while the
spec rule yields `["a@b"]`); and with zero valid recipients (an empty
configured string) delivery is not a no-op: a send is still attempted,
with recipient list `[""]`. -/
theorem C4_counterexample :
    sentRecipients (send_email ⟨("s"), ("p"), (" , a@b ")⟩ (fun _ => Except.ok ())
        [⟨routeParisAms, ("2025-08-18"), ("u"), none, none⟩]) =
      some [(" "), (" a@b ")]
    ∧ recipientsPerSpec (" , a@b ") = [("a@b")]
    ∧ recipientsPerSpec ("") = ([] : List String)
    ∧ sentRecipients (send_email ⟨("s"), ("p"), ("")⟩ (fun _ => Except.ok ())
        [⟨routeParisAms, ("2025-08-18"), ("u"), none, none⟩]) = some [("")] :=
  ⟨rfl, by decide, by decide, rfl⟩

/-- C4 (amended): the recipient list is the verbatim comma split of the
configured string (no trimming, empty pieces kept), and delivery is a
no-op exactly when the entry collection is empty — the recipient string
never causes a no-op. -/
theorem C4_amended_split_verbatim :
    ∀ (cfg : EmailConfig) (smtp : SmtpOracle) (entries : List DailyEntry),
      (entries = [] → send_email cfg smtp entries = Except.ok none)
      ∧ (send_email cfg smtp entries = Except.ok none → entries = [])
      ∧ (∀ rs : List String, sentRecipients (send_email cfg smtp entries) = some rs →
          rs = (splitOnChar ',' cfg.emailRecipient.toList).map String.mk) := by
  intro cfg smtp entries
  cases entries with
  | nil =>
    refine ⟨fun _ => rfl, fun _ => rfl, ?_⟩
    intro rs h
    simp [send_email, sentRecipients] at h
  | cons e es =>
    refine ⟨fun h => absurd h (by simp), ?_, ?_⟩
    · intro h
      rcases hs : smtp (outgoingFor cfg (e :: es)) with er | v <;>
        simp [send_email, hs] at h
    · intro rs h
      rcases hs : smtp (outgoingFor cfg (e :: es)) with er | v <;>
        simp [send_email, hs, sentRecipients] at h
      rw [← h]
      rfl

theorem C4_amended_split_verbatim_witness :
    send_email ⟨("s"), ("p"), ("r")⟩ (fun _ => Except.ok ()) ([] : List DailyEntry) =
      Except.ok none :=
  (C4_amended_split_verbatim ⟨("s"), ("p"), ("r")⟩ (fun _ => Except.ok ()) []).1 rfl

theorem filter_filter_sub (Q P : DailyEntry → Bool)
    (h : ∀ e : DailyEntry, P e = true → Q e = true) (l : List DailyEntry) :
    (l.filter Q).filter P = l.filter P := by
  rw [List.filter_filter]
  apply List.filter_congr
  intro e _
  cases hP : P e with
  | false => simp
  | true => simp [h e hP]

theorem sections_filter_eq (entries : List DailyEntry) :
    sections (entries.filter
      (fun e => e.route == routeParisAms || e.route == routeAmsParis)) =
    sections entries := by
  have hsec : ∀ r : String, r = routeParisAms ∨ r = routeAmsParis →
      sectionFor (entries.filter
        (fun e => e.route == routeParisAms || e.route == routeAmsParis)) r =
      sectionFor entries r := by
    intro r hr
    have hQ : ∀ e : DailyEntry, (e.route == r) = true →
        (e.route == routeParisAms || e.route == routeAmsParis) = true := by
      intro e he
      have he2 : e.route = r := by simpa using he
      rcases hr with rfl | rfl <;> simp [he2]
    unfold sectionFor
    rw [filter_filter_sub _ _ hQ]
  have hcong : ∀ (f g : String → Option String),
      (∀ r ∈ fixed_routes, f r = g r) →
      fixed_routes.filterMap f = fixed_routes.filterMap g := by
    intro f g h
    have h1 := h routeParisAms (by simp [fixed_routes])
    have h2 := h routeAmsParis (by simp [fixed_routes])
    simp [fixed_routes, List.filterMap_cons, h1, h2]
  exact hcong _ _ (fun r hr => hsec r (by simpa [fixed_routes] using hr))

/-- C10: the rendered document has sections only for the two fixed route
constants of the source (whose arrow is the mojibake sequence U+00E2
U+2020 U+2019): the message depends only on the entries carrying those two
route strings — every entry with any other route string is silently
omitted — and there are never more than two sections. -/
theorem C10_fixed_routes_only :
    ∀ entries : List DailyEntry,
      email_message entries =
        email_message (entries.filter
          (fun e => e.route == routeParisAms || e.route == routeAmsParis))
      ∧ (sections entries).length ≤ 2 := by
  intro entries
  constructor
  · unfold email_message
    rw [sections_filter_eq]
  · have h := List.length_filterMap_le (sectionFor entries) fixed_routes
    simpa [sections, fixed_routes] using h

theorem pyMin_cons {α β : Type _} [LinearOrder β] (key : α → β) (x y : α)
    (ys : List α) :
    pyMin key x (y :: ys) = pyMin key (if key y < key x then y else x) ys := rfl

theorem pyMin_mem {α β : Type _} [LinearOrder β] (key : α → β) :
    ∀ (xs : List α) (x : α), pyMin key x xs ∈ x :: xs := by
  intro xs
  induction xs with
  | nil => intro x; simp [pyMin]
  | cons y ys ih =>
    intro x
    rw [pyMin_cons]
    by_cases hk : key y < key x
    · rw [if_pos hk]
      rcases List.mem_cons.mp (ih y) with h | h
      · rw [h]; simp
      · exact List.mem_cons_of_mem _ (List.mem_cons_of_mem _ h)
    · rw [if_neg hk]
      rcases List.mem_cons.mp (ih x) with h | h
      · rw [h]; simp
      · exact List.mem_cons_of_mem _ (List.mem_cons_of_mem _ h)

theorem pyMin_le {α β : Type _} [LinearOrder β] (key : α → β) :
    ∀ (xs : List α) (x : α), ∀ o ∈ x :: xs, key (pyMin key x xs) ≤ key o := by
  intro xs
  induction xs with
  | nil =>
    intro x o ho
    rw [List.mem_singleton] at ho
    subst ho
    simp [pyMin]
  | cons y ys ih =>
    intro x o ho
    rw [pyMin_cons]
    by_cases hk : key y < key x
    · rw [if_pos hk]
      rcases List.mem_cons.mp ho with rfl | ho2
      · exact le_trans (ih y y (List.mem_cons_self _ _)) (le_of_lt hk)
      · rcases List.mem_cons.mp ho2 with rfl | ho3
        · exact ih _ o (List.mem_cons_self _ _)
        · exact ih y o (List.mem_cons_of_mem _ ho3)
    · rw [if_neg hk]
      rcases List.mem_cons.mp ho with rfl | ho2
      · exact ih _ o (List.mem_cons_self _ _)
      · rcases List.mem_cons.mp ho2 with rfl | ho3
        · exact le_trans (ih x x (List.mem_cons_self _ _)) (le_of_not_lt hk)
        · exact ih x o (List.mem_cons_of_mem _ ho3)

theorem pyMin_first {α β : Type _} [LinearOrder β] (key : α → β) :
    ∀ (xs : List α) (x : α),
      (x :: xs).find? (fun o => decide (key o ≤ key (pyMin key x xs))) =
        some (pyMin key x xs) := by
  intro xs
  induction xs with
  | nil =>
    intro x
    rw [show pyMin key x ([] : List α) = x from rfl]
    exact List.find?_cons_of_pos _ (by simp)
  | cons y ys ih =>
    intro x
    rw [pyMin_cons]
    by_cases hk : key y < key x
    · rw [if_pos hk]
      have hmy : key (pyMin key y ys) ≤ key y :=
        pyMin_le key ys y y (List.mem_cons_self _ _)
      have hpx : ¬ (key x ≤ key (pyMin key y ys)) :=
        not_le.mpr (lt_of_le_of_lt hmy hk)
      rw [List.find?_cons_of_neg _ (by simpa using hpx)]
      exact ih y
    · rw [if_neg hk]
      have hxy : key x ≤ key y := le_of_not_lt hk
      by_cases hpx : key x ≤ key (pyMin key x ys)
      · rw [List.find?_cons_of_pos _ (by simpa using hpx)]
        have hih := ih x
        rw [List.find?_cons_of_pos _ (by simpa using hpx)] at hih
        exact hih
      · rw [List.find?_cons_of_neg _ (by simpa using hpx)]
        have hih := ih x
        rw [List.find?_cons_of_neg _ (by simpa using hpx)] at hih
        have hpy : ¬ (key y ≤ key (pyMin key x ys)) :=
          fun hy => hpx (le_trans hxy hy)
        rw [List.find?_cons_of_neg _ (by simpa using hpy)]
        exact hih

/-- C7: for a band with at least one offer, the populated slot carries the
price text of `min(band_offers, key=price)`: an element of the band list
whose parsed price is minimal, which is the first element attaining the
minimum (stable selection), and which is never the unparseable sentinel
`⊤` while a parseable price exists in the band. -/
theorem C7_representative_offer :
    ∀ (url : String) (offers : List AggOffer) (b : Band) (x : AggOffer)
      (xs : List AggOffer),
      offers.filter (fun o => o.band == b) = x :: xs →
      (∀ o ∈ x :: xs,
        (o.time_range.all (fun tr => isHHMM tr.1 && isHHMM tr.2)) = true) →
      ∃ slot : BandSlot, aggregateBand url offers b = some slot
        ∧ slot.price_text = (pyMin aggKey x xs).price_text
        ∧ pyMin aggKey x xs ∈ x :: xs
        ∧ (∀ o ∈ x :: xs, aggKey (pyMin aggKey x xs) ≤ aggKey o)
        ∧ (x :: xs).find?
            (fun o => decide (aggKey o ≤ aggKey (pyMin aggKey x xs))) =
            some (pyMin aggKey x xs)
        ∧ (∀ o ∈ x :: xs, aggKey o ≠ ⊤ → aggKey (pyMin aggKey x xs) ≠ ⊤) := by
  intro url offers b x xs hfilter _
  unfold aggregateBand
  rw [hfilter]
  refine ⟨_, rfl, rfl, pyMin_mem aggKey xs x, pyMin_le aggKey xs x,
    pyMin_first aggKey xs x, ?_⟩
  intro o ho hne
  exact ne_top_of_le_ne_top hne (pyMin_le aggKey xs x o ho)

theorem C7_representative_offer_witness :
    ∃ slot : BandSlot,
      aggregateBand ("u") [demo1, demo2, demo3] Band.morning = some slot
      ∧ slot.price_text = (pyMin aggKey demo1 [demo2, demo3]).price_text
      ∧ pyMin aggKey demo1 [demo2, demo3] ∈ demo1 :: [demo2, demo3]
      ∧ (∀ o ∈ demo1 :: [demo2, demo3],
          aggKey (pyMin aggKey demo1 [demo2, demo3]) ≤ aggKey o)
      ∧ (demo1 :: [demo2, demo3]).find?
          (fun o => decide (aggKey o ≤ aggKey (pyMin aggKey demo1 [demo2, demo3]))) =
          some (pyMin aggKey demo1 [demo2, demo3])
      ∧ (∀ o ∈ demo1 :: [demo2, demo3], aggKey o ≠ ⊤ →
          aggKey (pyMin aggKey demo1 [demo2, demo3]) ≠ ⊤) :=
  C7_representative_offer ("u") [demo1, demo2, demo3] Band.morning demo1
    [demo2, demo3] (by decide) (by decide)

/-- C8: the merged window of a nonempty band is the earliest start paired
with the latest end (each taken from the input ranges); for two ranges
(a, b) and (c, d) the merged window is (min(a, c), max(b, d)) in start/end
minutes, with ties keeping the first-listed range (Python sorted is
stable). -/
theorem C8_merge_law :
    (∀ (trs : List TimeRange) (x : TimeRange) (xs : List TimeRange),
      trs = x :: xs →
      (∀ r ∈ trs, isHHMM r.1 = true ∧ isHHMM r.2 = true) →
      ∃ s e : String, _merge_time_ranges trs = some (s, e)
        ∧ (∃ r ∈ trs, r.1 = s)
        ∧ (∀ r ∈ trs, to_minutes s ≤ to_minutes r.1)
        ∧ (∃ r ∈ trs, r.2 = e)
        ∧ (∀ r ∈ trs, to_minutes r.2 ≤ to_minutes e))
    ∧ (∀ a b c d : String,
        isHHMM a = true → isHHMM b = true → isHHMM c = true → isHHMM d = true →
        _merge_time_ranges [(a, b), (c, d)] =
          some ((if to_minutes a ≤ to_minutes c then a else c),
                (if to_minutes d ≤ to_minutes b then b else d))
        ∧ to_minutes (if to_minutes a ≤ to_minutes c then a else c) =
            min (to_minutes a) (to_minutes c)
        ∧ to_minutes (if to_minutes d ≤ to_minutes b then b else d) =
            max (to_minutes b) (to_minutes d)) := by
  constructor
  · intro trs x xs htrs _
    subst htrs
    obtain ⟨s0, S', hS⟩ : ∃ s0 S',
        List.insertionSort startLE (x :: xs) = s0 :: S' := by
      cases hS : List.insertionSort startLE (x :: xs) with
      | nil =>
        exfalso
        have hp := List.perm_insertionSort startLE (x :: xs)
        rw [hS] at hp
        simpa using hp.length_eq
      | cons a l => exact ⟨a, l, rfl⟩
    obtain ⟨e0, E', hE⟩ : ∃ e0 E',
        List.insertionSort endGE (x :: xs) = e0 :: E' := by
      cases hE : List.insertionSort endGE (x :: xs) with
      | nil =>
        exfalso
        have hp := List.perm_insertionSort endGE (x :: xs)
        rw [hE] at hp
        simpa using hp.length_eq
      | cons a l => exact ⟨a, l, rfl⟩
    refine ⟨s0.1, e0.2, ?_, ?_, ?_, ?_, ?_⟩
    · show some (((List.insertionSort startLE (x :: xs)).headD x).1,
          ((List.insertionSort endGE (x :: xs)).headD x).2) = some (s0.1, e0.2)
      rw [hS, hE]
      rfl
    · refine ⟨s0, ?_, rfl⟩
      exact (List.perm_insertionSort startLE (x :: xs)).mem_iff.mp
        (by rw [hS]; exact List.mem_cons_self _ _)
    · intro r hr
      have hsorted := List.sorted_insertionSort startLE (x :: xs)
      rw [hS] at hsorted
      have hr2 : r ∈ s0 :: S' := by
        rw [← hS]
        exact (List.perm_insertionSort startLE (x :: xs)).mem_iff.mpr hr
      rcases List.mem_cons.mp hr2 with rfl | hr3
      · exact le_refl _
      · exact List.rel_of_sorted_cons hsorted r hr3
    · refine ⟨e0, ?_, rfl⟩
      exact (List.perm_insertionSort endGE (x :: xs)).mem_iff.mp
        (by rw [hE]; exact List.mem_cons_self _ _)
    · intro r hr
      have hsorted := List.sorted_insertionSort endGE (x :: xs)
      rw [hE] at hsorted
      have hr2 : r ∈ e0 :: E' := by
        rw [← hE]
        exact (List.perm_insertionSort endGE (x :: xs)).mem_iff.mpr hr
      rcases List.mem_cons.mp hr2 with rfl | hr3
      · exact le_refl _
      · exact List.rel_of_sorted_cons hsorted r hr3
  · intro a b c d _ _ _ _
    have e1 : List.insertionSort startLE [(a, b), (c, d)] =
        if to_minutes a ≤ to_minutes c then [(a, b), (c, d)]
        else [(c, d), (a, b)] := by
      simp only [List.insertionSort, List.orderedInsert]
      by_cases h1 : startLE (a, b) (c, d)
      · have h1m : to_minutes a ≤ to_minutes c := h1
        rw [if_pos h1, if_pos h1m]
      · have h1m : ¬ to_minutes a ≤ to_minutes c := h1
        rw [if_neg h1, if_neg h1m]
    have e2 : List.insertionSort endGE [(a, b), (c, d)] =
        if to_minutes d ≤ to_minutes b then [(a, b), (c, d)]
        else [(c, d), (a, b)] := by
      simp only [List.insertionSort, List.orderedInsert]
      by_cases h2 : endGE (a, b) (c, d)
      · have h2m : to_minutes d ≤ to_minutes b := h2
        rw [if_pos h2, if_pos h2m]
      · have h2m : ¬ to_minutes d ≤ to_minutes b := h2
        rw [if_neg h2, if_neg h2m]
    refine ⟨?_, ?_, ?_⟩
    · show some ((
          (List.insertionSort startLE [(a, b), (c, d)]).headD (a, b)).1,
          ((List.insertionSort endGE [(a, b), (c, d)]).headD (a, b)).2) = _
      rw [e1, e2]
      by_cases h1 : to_minutes a ≤ to_minutes c <;>
        by_cases h2 : to_minutes d ≤ to_minutes b <;>
          simp [h1, h2]
    · by_cases h1 : to_minutes a ≤ to_minutes c
      · rw [if_pos h1, min_eq_left h1]
      · rw [if_neg h1, min_eq_right (le_of_not_le h1)]
    · by_cases h2 : to_minutes d ≤ to_minutes b
      · rw [if_pos h2, max_eq_left h2]
      · rw [if_neg h2, max_eq_right (le_of_not_le h2)]

theorem C8_merge_law_witness :
    ∃ s e : String,
      _merge_time_ranges [(("06:10"), ("09:00")), (("05:30"), ("08:00"))] =
        some (s, e)
      ∧ (∃ r ∈ [(("06:10"), ("09:00")), (("05:30"), ("08:00"))], r.1 = s)
      ∧ (∀ r ∈ [(("06:10"), ("09:00")), (("05:30"), ("08:00"))],
          to_minutes s ≤ to_minutes r.1)
      ∧ (∃ r ∈ [(("06:10"), ("09:00")), (("05:30"), ("08:00"))], r.2 = e)
      ∧ (∀ r ∈ [(("06:10"), ("09:00")), (("05:30"), ("08:00"))],
          to_minutes r.2 ≤ to_minutes e) :=
  C8_merge_law.1 [(("06:10"), ("09:00")), (("05:30"), ("08:00"))]
    (("06:10"), ("09:00")) [(("05:30"), ("08:00"))] rfl (by decide)

end Checker
